import Mathlib

/-!
Verification development for the OpticalPhaseSegmentation repository
(src/segment/batch_backend.py, class BatchBackend).

The Python module is shallowly embedded: numpy rasters become lists of
rows (`Grid`), elementwise numpy operations become pointwise list
operations, float arithmetic is idealized as exact rational arithmetic,
and the in-memory job registry becomes an association list threaded
through the job-management functions.  The RGB-to-LAB conversion
(rgb_to_lab) involves irrational powers (gamma 2.4, cube roots), so the
classification engine is parameterized over the conversion function,
exactly as classify_image calls self.rgb_to_lab; all classification
theorems hold for every conversion function.
-/

namespace OpticalPhase

/-- A grid models a 2D numpy array as a list of rows. -/
abbrev Grid (α : Type) := List (List α)

/-- Pointwise map over a grid (elementwise numpy operation on one array). -/
def gridMap {α β : Type} (f : α → β) (g : Grid α) : Grid β :=
  g.map (fun row => row.map f)

/-- Pointwise combination of two grids (elementwise numpy operation on two
equal-shape arrays). -/
def gridZip {α β γ : Type} (f : α → β → γ) (g1 : Grid α) (g2 : Grid β) : Grid γ :=
  List.zipWith (fun r s => List.zipWith f r s) g1 g2

/-- Two grids have the same shape: same row count and same length per row.
Stated as equality of the row-length lists so that it is decidable. -/
def SameShape {α β : Type} (g1 : Grid α) (g2 : Grid β) : Prop :=
  g1.map List.length = g2.map List.length

lemma zipWith_map_both {α γ₁ γ₂ δ : Type} (f : γ₁ → γ₂ → δ) (u : α → γ₁) (v : α → γ₂)
    (l : List α) :
    List.zipWith f (l.map u) (l.map v) = l.map (fun a => f (u a) (v a)) := by
  induction l with
  | nil => rfl
  | cons a t ih => simp [ih]

lemma zipWith_zipWith_both {α β γ₁ γ₂ δ : Type} (f : γ₁ → γ₂ → δ)
    (u : α → β → γ₁) (v : α → β → γ₂) :
    ∀ (a : List α) (b : List β),
      List.zipWith f (List.zipWith u a b) (List.zipWith v a b)
        = List.zipWith (fun x y => f (u x y) (v x y)) a b := by
  intro a
  induction a with
  | nil => intro b; rfl
  | cons x t ih =>
    intro b
    cases b with
    | nil => rfl
    | cons y s => simp [ih s]

lemma map_const_eq_zipWith {α β γ : Type} (c : γ) :
    ∀ (a : List α) (b : List β), a.length = b.length →
      a.map (fun _ => c) = List.zipWith (fun _ _ => c) a b := by
  intro a
  induction a with
  | nil => intro b _; rfl
  | cons x t ih =>
    intro b h
    cases b with
    | nil => simp at h
    | cons y s =>
      simp only [List.length_cons, Nat.succ.injEq] at h
      simp [ih s h]

lemma gridZip_gridMap_both {α γ₁ γ₂ δ : Type} (f : γ₁ → γ₂ → δ)
    (u : α → γ₁) (v : α → γ₂) (g : Grid α) :
    gridZip f (gridMap u g) (gridMap v g) = gridMap (fun a => f (u a) (v a)) g := by
  unfold gridZip gridMap
  rw [zipWith_map_both]
  apply List.map_congr_left
  intro row _
  exact zipWith_map_both f u v row

lemma zipWith_map_right_same {α γ δ : Type} (f : α → γ → δ) (v : α → γ) (l : List α) :
    List.zipWith f l (l.map v) = l.map (fun a => f a (v a)) := by
  induction l with
  | nil => rfl
  | cons a t ih => simp [ih]

lemma gridZip_gridMap_right {α γ δ : Type} (f : α → γ → δ) (v : α → γ) (g : Grid α) :
    gridZip f g (gridMap v g) = gridMap (fun a => f a (v a)) g := by
  unfold gridZip gridMap
  rw [zipWith_map_right_same]
  apply List.map_congr_left
  intro row _
  exact zipWith_map_right_same f v row

lemma gridZip_gridZip_both {α β γ₁ γ₂ δ : Type} (f : γ₁ → γ₂ → δ)
    (u : α → β → γ₁) (v : α → β → γ₂) (a : Grid α) (b : Grid β) :
    gridZip f (gridZip u a b) (gridZip v a b)
      = gridZip (fun x y => f (u x y) (v x y)) a b := by
  unfold gridZip
  rw [zipWith_zipWith_both]
  induction a generalizing b with
  | nil => rfl
  | cons r t ih =>
    cases b with
    | nil => rfl
    | cons s t2 => simp [ih t2, zipWith_zipWith_both f u v r s]

lemma gridMap_const_eq_gridZip {α β γ : Type} (c : γ) (g1 : Grid α) (g2 : Grid β)
    (h : SameShape g1 g2) :
    gridMap (fun _ => c) g1 = gridZip (fun _ _ => c) g1 g2 := by
  unfold SameShape at h
  unfold gridMap gridZip
  induction g1 generalizing g2 with
  | nil =>
    cases g2 with
    | nil => rfl
    | cons r s => simp at h
  | cons r t ih =>
    cases g2 with
    | nil => simp at h
    | cons r2 t2 =>
      simp only [List.map_cons, List.cons.injEq] at h
      simp only [List.map_cons, List.zipWith_cons_cons, List.cons.injEq]
      exact ⟨map_const_eq_zipWith c r r2 h.1, ih t2 h.2⟩

lemma sameShape_gridMap {α β γ : Type} (f : α → β) (g : α → γ) (G : Grid α) :
    SameShape (gridMap f G) (gridMap g G) := by
  unfold SameShape gridMap
  simp [List.map_map, Function.comp]

/-! ## Point-in-polygon (ray casting)

Embeds point_in_polygon (the scalar reference, lines 169-196) and
vectorized_point_in_polygon (lines 198-241).  A polygon vertex is a
brightness/contrast pair; both functions walk the same cyclic edge list
(v0,v1), (v1,v2), ..., (v(n-1),v0). -/

/-- A polygon vertex: a dict with keys brightness and contrast. -/
structure Vertex where
  brightness : ℚ
  contrast : ℚ
deriving DecidableEq

/-- The x intersection formula shared verbatim by both source functions:
x_inters = (y - p1_y) * (p2_x - p1_x) / (p2_y - p1_y) + p1_x. -/
def xInters (p1 p2 : Vertex) (y : ℚ) : ℚ :=
  (y - p1.contrast) * (p2.brightness - p1.brightness) / (p2.contrast - p1.contrast)
    + p1.brightness

/-- The cyclic edge list both functions iterate over.  The scalar code pairs
polygon[i-1] with polygon[i % n] for i = 1..n; the vectorized code pairs
polygon[i] with polygon[(i+1) % n] for i = 0..n-1; both give this list. -/
def polygonEdges : List Vertex → List (Vertex × Vertex)
  | [] => []
  | v :: vs => (v :: vs).zip (vs ++ [v])

/-- One loop iteration of point_in_polygon.  The state is the inside flag
together with the Python local x_inters, which persists across iterations;
its initial value 0 models the variable being unset (the source reads it
only under a guard that forces it to have just been assigned). -/
def pipStep (x y : ℚ) (st : Bool × ℚ) (e : Vertex × Vertex) : Bool × ℚ :=
  if y > min e.1.contrast e.2.contrast ∧ y ≤ max e.1.contrast e.2.contrast ∧
      x ≤ max e.1.brightness e.2.brightness then
    (if e.1.brightness = e.2.brightness ∨
        x ≤ (if e.1.contrast ≠ e.2.contrast then xInters e.1 e.2 y else st.2) then
      !st.1
    else st.1,
     if e.1.contrast ≠ e.2.contrast then xInters e.1 e.2 y else st.2)
  else st

/-- Scalar ray-casting reference point_in_polygon (lines 169-196).  On the
empty vertex list the Python code raises IndexError; the total model returns
false there and the equivalence theorem assumes a nonempty polygon. -/
def point_in_polygon (x y : ℚ) (polygon : List Vertex) : Bool :=
  ((polygonEdges polygon).foldl (pipStep x y) (false, 0)).1

/-- The per-pixel crossing test of one edge in vectorized_point_in_polygon:
crosses = y_in_range AND (brightness <= x_inters), or, for a horizontal
edge, y_in_range AND (brightness <= max(p1_x, p2_x)). -/
def vpipEdge (b c : ℚ) (e : Vertex × Vertex) : Bool :=
  if e.1.contrast ≠ e.2.contrast then
    decide ((min e.1.contrast e.2.contrast < c ∧ c ≤ max e.1.contrast e.2.contrast) ∧
      b ≤ xInters e.1 e.2 c)
  else
    decide ((min e.1.contrast e.2.contrast < c ∧ c ≤ max e.1.contrast e.2.contrast) ∧
      b ≤ max e.1.brightness e.2.brightness)

/-- Vectorized point-in-polygon over whole rasters (lines 198-241): the
inside mask starts all false and is xor-ed with the per-edge crossing mask,
one whole-grid pass per edge. -/
def vectorized_point_in_polygon (brightness_img contrast_img : Grid ℚ)
    (polygon : List Vertex) : Grid Bool :=
  (polygonEdges polygon).foldl
    (fun inside e =>
      gridZip Bool.xor inside (gridZip (fun b c => vpipEdge b c e) brightness_img contrast_img))
    (gridMap (fun _ => false) brightness_img)

/-- Reading of the vectorized algorithm at a single pixel: fold the per-edge
crossing toggles.  Proof artifact used to relate the two source functions. -/
def vpipPoint (b c : ℚ) (polygon : List Vertex) : Bool :=
  (polygonEdges polygon).foldl (fun inside e => Bool.xor inside (vpipEdge b c e)) false

lemma xInters_le_max (p1 p2 : Vertex) (y : ℚ)
    (h1 : min p1.contrast p2.contrast < y) (h2 : y ≤ max p1.contrast p2.contrast) :
    xInters p1 p2 y ≤ max p1.brightness p2.brightness := by
  unfold xInters
  rcases lt_trichotomy p1.contrast p2.contrast with hlt | heq | hgt
  · rw [min_eq_left hlt.le] at h1
    rw [max_eq_right hlt.le] at h2
    have hpos : 0 < p2.contrast - p1.contrast := by linarith
    rcases le_total p1.brightness p2.brightness with hb | hb
    · rw [max_eq_right hb]
      have h3 : (y - p1.contrast) * (p2.brightness - p1.brightness) / (p2.contrast - p1.contrast)
          ≤ p2.brightness - p1.brightness := by
        rw [div_le_iff₀ hpos]
        nlinarith
      linarith
    · rw [max_eq_left hb]
      have hnum : (y - p1.contrast) * (p2.brightness - p1.brightness) ≤ 0 := by nlinarith
      have := div_nonpos_of_nonpos_of_nonneg hnum hpos.le
      linarith
  · rw [heq] at h1 h2
    simp only [min_self] at h1
    simp only [max_self] at h2
    linarith
  · rw [min_eq_right hgt.le] at h1
    rw [max_eq_left hgt.le] at h2
    have hneg : p2.contrast - p1.contrast < 0 := by linarith
    rcases le_total p1.brightness p2.brightness with hb | hb
    · rw [max_eq_right hb]
      have h3 : (y - p1.contrast) * (p2.brightness - p1.brightness) / (p2.contrast - p1.contrast)
          ≤ p2.brightness - p1.brightness := by
        rw [div_le_iff_of_neg hneg]
        nlinarith
      linarith
    · rw [max_eq_left hb]
      have hnum : 0 ≤ (y - p1.contrast) * (p2.brightness - p1.brightness) := by nlinarith
      have := div_nonpos_of_nonneg_of_nonpos hnum hneg.le
      linarith

lemma vpipEdge_false_of_not_yin (x y : ℚ) (e : Vertex × Vertex)
    (h : ¬ (min e.1.contrast e.2.contrast < y ∧ y ≤ max e.1.contrast e.2.contrast)) :
    vpipEdge x y e = false := by
  unfold vpipEdge
  by_cases hne : e.1.contrast ≠ e.2.contrast
  · rw [if_pos hne]
    exact decide_eq_false (fun hc => h hc.1)
  · rw [if_neg hne]
    exact decide_eq_false (fun hc => h hc.1)

/-- The inside flag after one scalar iteration equals the flag xor-ed with
the vectorized crossing test for that edge, regardless of the carried
x_inters state. -/
lemma pipStep_fst (x y : ℚ) (st : Bool × ℚ) (e : Vertex × Vertex) :
    (pipStep x y st e).1 = Bool.xor st.1 (vpipEdge x y e) := by
  by_cases hyin : min e.1.contrast e.2.contrast < y ∧ y ≤ max e.1.contrast e.2.contrast
  · have hne : e.1.contrast ≠ e.2.contrast := by
      intro hc
      rw [hc] at hyin
      simp only [min_self, max_self] at hyin
      exact absurd hyin.2 (not_le.mpr hyin.1)
    by_cases hxm : x ≤ max e.1.brightness e.2.brightness
    · have hg : y > min e.1.contrast e.2.contrast ∧ y ≤ max e.1.contrast e.2.contrast ∧
          x ≤ max e.1.brightness e.2.brightness := ⟨hyin.1, hyin.2, hxm⟩
      unfold pipStep vpipEdge
      rw [if_pos hg, if_pos hne, if_pos hne]
      by_cases hbb : e.1.brightness = e.2.brightness
      · have hxi : xInters e.1 e.2 y = e.1.brightness := by
          unfold xInters
          rw [← hbb]
          simp
        have hx1 : x ≤ xInters e.1 e.2 y := by
          rw [hxi]
          rw [← hbb, max_self] at hxm
          exact hxm
        rw [if_pos (Or.inl hbb), decide_eq_true ⟨hyin, hx1⟩, Bool.xor_true]
      · by_cases hxi : x ≤ xInters e.1 e.2 y
        · rw [if_pos (Or.inr hxi), decide_eq_true ⟨hyin, hxi⟩, Bool.xor_true]
        · rw [if_neg (not_or.mpr ⟨hbb, hxi⟩), decide_eq_false (fun hc => hxi hc.2),
            Bool.xor_false]
    · have hg : ¬ (y > min e.1.contrast e.2.contrast ∧ y ≤ max e.1.contrast e.2.contrast ∧
          x ≤ max e.1.brightness e.2.brightness) := by
        intro hc
        exact hxm hc.2.2
      have hxi : ¬ x ≤ xInters e.1 e.2 y := by
        intro hc
        exact hxm (hc.trans (xInters_le_max e.1 e.2 y hyin.1 hyin.2))
      unfold pipStep vpipEdge
      rw [if_neg hg, if_pos hne, decide_eq_false (fun hc => hxi hc.2), Bool.xor_false]
  · have hg : ¬ (y > min e.1.contrast e.2.contrast ∧ y ≤ max e.1.contrast e.2.contrast ∧
        x ≤ max e.1.brightness e.2.brightness) := by
      intro hc
      exact hyin ⟨hc.1, hc.2.1⟩
    rw [vpipEdge_false_of_not_yin x y e hyin, Bool.xor_false]
    unfold pipStep
    rw [if_neg hg]

lemma pip_foldl_fst (x y : ℚ) (E : List (Vertex × Vertex)) :
    ∀ st : Bool × ℚ,
      (E.foldl (pipStep x y) st).1
        = E.foldl (fun i e => Bool.xor i (vpipEdge x y e)) st.1 := by
  induction E with
  | nil => intro st; rfl
  | cons e t ih =>
    intro st
    simp only [List.foldl_cons]
    rw [ih (pipStep x y st e), pipStep_fst]

/-- At every single point the scalar reference and the pointwise reading of
the vectorized algorithm agree. -/
lemma point_in_polygon_eq_vpipPoint (x y : ℚ) (polygon : List Vertex) :
    point_in_polygon x y polygon = vpipPoint x y polygon := by
  unfold point_in_polygon vpipPoint
  exact pip_foldl_fst x y (polygonEdges polygon) (false, 0)

/-- The grid fold of the vectorized algorithm is the pointwise fold. -/
lemma vectorized_foldl (B C : Grid ℚ) (E : List (Vertex × Vertex)) :
    ∀ g : ℚ → ℚ → Bool,
      E.foldl
        (fun inside e =>
          gridZip Bool.xor inside (gridZip (fun b c => vpipEdge b c e) B C))
        (gridZip g B C)
      = gridZip (fun b c => E.foldl (fun i e => Bool.xor i (vpipEdge b c e)) (g b c)) B C := by
  induction E with
  | nil => intro g; rfl
  | cons e t ih =>
    intro g
    simp only [List.foldl_cons]
    rw [gridZip_gridZip_both]
    exact ih (fun b c => Bool.xor (g b c) (vpipEdge b c e))

lemma vectorized_eq_gridZip_vpipPoint (B C : Grid ℚ) (polygon : List Vertex)
    (h : SameShape B C) :
    vectorized_point_in_polygon B C polygon
      = gridZip (fun b c => vpipPoint b c polygon) B C := by
  unfold vectorized_point_in_polygon
  rw [gridMap_const_eq_gridZip false B C h, vectorized_foldl]
  rfl

/-! ## Classification engine (classify_image, lines 80-167)

A pixel is an 8-bit RGB triple.  Phase rules come from a configuration
mapping phase id to phase data; Python dict keys are decimal strings that
every consumer immediately converts with int(phase_id), so ids are modelled
directly as naturals.  The classified raster has dtype uint8, which
restricts representable ids to 0..255; theorems about stored ids therefore
assume ids within that range. -/

/-- An RGB pixel with 8-bit channels. -/
abbrev Pixel := ℕ × ℕ × ℕ

/-- The type of the RGB-to-LAB conversion (rgb_to_lab, lines 27-78); the
real function uses irrational powers, so the engine takes it as a
parameter and the theorems hold for every conversion. -/
abbrev RGBToLabFn := Pixel → ℚ × ℚ × ℚ

/-- brightness_img value at a pixel: np.mean over the three channels. -/
def brightnessOf (px : Pixel) : ℚ := ((px.1 : ℚ) + (px.2.1 : ℚ) + (px.2.2 : ℚ)) / 3

/-- contrast_img value at a pixel: np.ptp (max minus min) over the channels. -/
def contrastOf (px : Pixel) : ℚ :=
  ((max px.1 (max px.2.1 px.2.2) : ℕ) : ℚ) - ((min px.1 (min px.2.1 px.2.2) : ℕ) : ℚ)

/-- LAB window of one phase.  Each bound is optional, mirroring
lab_ranges.get("L", &#x7b;&#x7d;).get("min", default): a missing bound falls back to
-100/100 for L and -128/128 for a and b. -/
structure LabRanges where
  Lmin : Option ℚ := none
  Lmax : Option ℚ := none
  amin : Option ℚ := none
  amax : Option ℚ := none
  bmin : Option ℚ := none
  bmax : Option ℚ := none
deriving DecidableEq

/-- One phase of the configuration.  labRanges = none models both an absent
key and a falsy (empty or non-dict) value, which the source skips alike;
bcZone = [] models an absent or empty zone (the source requires a nonempty
list). -/
structure PhaseData where
  name : String := ""
  labRanges : Option LabRanges := none
  bcZone : List Vertex := []
deriving DecidableEq

/-- The inclusive LAB bounds test of classify_image (lines 140-148). -/
def labMatch (lr : LabRanges) (lab : ℚ × ℚ × ℚ) : Bool :=
  decide (lr.Lmin.getD (-100) ≤ lab.1 ∧ lab.1 ≤ lr.Lmax.getD 100 ∧
    lr.amin.getD (-128) ≤ lab.2.1 ∧ lab.2.1 ≤ lr.amax.getD 128 ∧
    lr.bmin.getD (-128) ≤ lab.2.2 ∧ lab.2.2 ≤ lr.bmax.getD 128)

/-- The LAB pass of one phase (lines 130-149): every pixel still at id 0
whose converted value lies in the window receives this phase id. -/
def labPass (conv : RGBToLabFn) (pid : ℕ) (lr : LabRanges)
    (image : Grid Pixel) (classified : Grid ℕ) : Grid ℕ :=
  gridZip
    (fun px cur => if cur ≠ 0 then cur else if labMatch lr (conv px) then pid else cur)
    image classified

/-- The zone pass of one phase (lines 152-159): mask by the vectorized
point-in-polygon test, restrict to still-unclassified pixels, assign. -/
def zonePass (pid : ℕ) (zone : List Vertex) (brightness_img contrast_img : Grid ℚ)
    (classified : Grid ℕ) : Grid ℕ :=
  gridZip (fun m cur => if m && decide (cur = 0) then pid else cur)
    (vectorized_point_in_polygon brightness_img contrast_img zone) classified

/-- The optional LAB stage of one phase: applied only when the phase
declares LAB ranges (lines 126-127). -/
def labStage (conv : RGBToLabFn) (image : Grid Pixel) (classified : Grid ℕ)
    (pid : ℕ) : Option LabRanges → Grid ℕ
  | some lr => labPass conv pid lr image classified
  | none => classified

/-- Per-phase body of the classification loop (lines 120-161): the LAB rule
is tried first, then the zone rule on the still-unclassified remainder. -/
def applyPhase (conv : RGBToLabFn) (image : Grid Pixel)
    (brightness_img contrast_img : Grid ℚ) (classified : Grid ℕ)
    (pp : ℕ × PhaseData) : Grid ℕ :=
  if pp.2.bcZone.isEmpty then labStage conv image classified pp.1 pp.2.labRanges
  else zonePass pp.1 pp.2.bcZone brightness_img contrast_img
    (labStage conv image classified pp.1 pp.2.labRanges)

/-- classify_image (lines 80-167).  The first disjunct is use_lab, the
second use_bc; they only gate the up-front configuration error and the
logging, and each phase then applies its own declared rules.
brightness_img/contrast_img are computed in the source only under use_bc
and read only under it, so computing them always is observationally
identical. -/
def classify_image (conv : RGBToLabFn) (image : Grid Pixel)
    (phases : List (ℕ × PhaseData)) : Except String (Grid ℕ) :=
  if phases.any (fun pp => pp.2.labRanges.isSome)
      || phases.any (fun pp => !pp.2.bcZone.isEmpty) then
    .ok (phases.foldl
      (applyPhase conv image (gridMap brightnessOf image) (gridMap contrastOf image))
      (gridMap (fun _ => 0) image))
  else
    .error "No classification method available (neither LAB nor B/C)"

/-- A phase rule matches a pixel when its LAB window contains the converted
pixel or its (nonempty) zone contains the pixel's brightness/contrast pair. -/
def phaseMatch (conv : RGBToLabFn) (pd : PhaseData) (px : Pixel) : Bool :=
  (match pd.labRanges with
    | some lr => labMatch lr (conv px)
    | none => false)
  || (!pd.bcZone.isEmpty && vpipPoint (brightnessOf px) (contrastOf px) pd.bcZone)

/-- The pixel-level meaning of the classification loop: the id of the first
phase in declaration order whose rule matches, 0 if none matches. -/
def classifyPixel (conv : RGBToLabFn) (phases : List (ℕ × PhaseData)) (px : Pixel) : ℕ :=
  match phases.find? (fun pp => phaseMatch conv pp.2 px) with
  | some pp => pp.1
  | none => 0

/-- The per-pixel effect of one phase of the loop. -/
def pixelStep (conv : RGBToLabFn) (px : Pixel) (cur : ℕ) (pp : ℕ × PhaseData) : ℕ :=
  if cur ≠ 0 then cur else if phaseMatch conv pp.2 px then pp.1 else cur

lemma gridMap_congr_fun {α β : Type} (f f2 : α → β) (g : Grid α)
    (h : ∀ a, f a = f2 a) : gridMap f g = gridMap f2 g := by
  have : f = f2 := funext h
  rw [this]

lemma labStage_gridMap (conv : RGBToLabFn) (image : Grid Pixel) (g : Pixel → ℕ)
    (pid : ℕ) (olr : Option LabRanges) :
    labStage conv image (gridMap g image) pid olr
      = gridMap (fun px =>
          if g px ≠ 0 then g px
          else if (match olr with
            | some lr => labMatch lr (conv px)
            | none => false) then pid
          else g px) image := by
  cases olr with
  | none =>
    show gridMap g image = _
    apply gridMap_congr_fun
    intro px
    by_cases hc : g px = 0 <;> simp [hc]
  | some lr =>
    show labPass conv pid lr image (gridMap g image) = _
    unfold labPass
    rw [gridZip_gridMap_right]

lemma applyPhase_gridMap (conv : RGBToLabFn) (image : Grid Pixel)
    (g : Pixel → ℕ) (pp : ℕ × PhaseData) (hpid : pp.1 ≠ 0) :
    applyPhase conv image (gridMap brightnessOf image) (gridMap contrastOf image)
      (gridMap g image) pp
      = gridMap (fun px => pixelStep conv px (g px) pp) image := by
  unfold applyPhase
  have hmask : vectorized_point_in_polygon (gridMap brightnessOf image)
      (gridMap contrastOf image) pp.2.bcZone
      = gridMap (fun px => vpipPoint (brightnessOf px) (contrastOf px) pp.2.bcZone) image := by
    rw [vectorized_eq_gridZip_vpipPoint _ _ _ (sameShape_gridMap _ _ _),
      gridZip_gridMap_both]
  by_cases hz : pp.2.bcZone.isEmpty
  · rw [if_pos hz, labStage_gridMap]
    apply gridMap_congr_fun
    intro px
    unfold pixelStep phaseMatch
    by_cases hc : g px = 0
    · simp [hc, hz]
    · simp [hc]
  · rw [if_neg hz, labStage_gridMap]
    unfold zonePass
    rw [hmask, gridZip_gridMap_both]
    apply gridMap_congr_fun
    intro px
    unfold pixelStep phaseMatch
    have hz2 : pp.2.bcZone.isEmpty = false := by
      cases h : pp.2.bcZone.isEmpty
      · rfl
      · exact absurd h hz
    by_cases hc : g px = 0
    · by_cases hm : (match pp.2.labRanges with
        | some lr => labMatch lr (conv px)
        | none => false) = true
      · simp [hc, hm, hpid, hz2]
      · by_cases hv : vpipPoint (brightnessOf px) (contrastOf px) pp.2.bcZone
        · simp [hc, hm, hv, hz2]
        · simp [hc, hm, hv, hz2]
    · simp [hc]

lemma classify_foldl (conv : RGBToLabFn) (image : Grid Pixel)
    (phases : List (ℕ × PhaseData)) (hids : ∀ pp ∈ phases, pp.1 ≠ 0) :
    ∀ g : Pixel → ℕ,
      phases.foldl
        (applyPhase conv image (gridMap brightnessOf image) (gridMap contrastOf image))
        (gridMap g image)
      = gridMap (fun px => phases.foldl (pixelStep conv px) (g px)) image := by
  induction phases with
  | nil => intro g; rfl
  | cons pp t ih =>
    intro g
    simp only [List.foldl_cons]
    rw [applyPhase_gridMap conv image g pp (hids pp (List.mem_cons_self pp t))]
    exact ih (fun q hq => hids q (List.mem_cons_of_mem pp hq)) _

lemma pixelStep_foldl_of_ne_zero (conv : RGBToLabFn) (px : Pixel)
    (phases : List (ℕ × PhaseData)) :
    ∀ cur, cur ≠ 0 → phases.foldl (pixelStep conv px) cur = cur := by
  induction phases with
  | nil => intro cur _; rfl
  | cons pp t ih =>
    intro cur hc
    simp only [List.foldl_cons]
    rw [show pixelStep conv px cur pp = cur by unfold pixelStep; simp [hc]]
    exact ih cur hc

lemma pixelStep_foldl_eq_classifyPixel (conv : RGBToLabFn) (px : Pixel)
    (phases : List (ℕ × PhaseData)) (hids : ∀ pp ∈ phases, pp.1 ≠ 0) :
    phases.foldl (pixelStep conv px) 0 = classifyPixel conv phases px := by
  induction phases with
  | nil => rfl
  | cons pp t ih =>
    simp only [List.foldl_cons]
    by_cases hm : phaseMatch conv pp.2 px
    · rw [show pixelStep conv px 0 pp = pp.1 by unfold pixelStep; simp [hm]]
      rw [pixelStep_foldl_of_ne_zero conv px t pp.1 (hids pp (List.mem_cons_self pp t))]
      unfold classifyPixel
      simp [List.find?_cons, hm]
    · rw [show pixelStep conv px 0 pp = 0 by unfold pixelStep; simp [hm]]
      unfold classifyPixel
      have hfind : List.find? (fun pp2 => phaseMatch conv pp2.2 px) (pp :: t)
          = List.find? (fun pp2 => phaseMatch conv pp2.2 px) t := by
        simp [List.find?_cons, hm]
      rw [hfind]
      exact ih (fun q hq => hids q (List.mem_cons_of_mem pp hq))

/-- Master lemma: when some phase declares a rule, classify_image succeeds
and is the pointwise first-match map over the image. -/
lemma classify_image_eq_map (conv : RGBToLabFn) (image : Grid Pixel)
    (phases : List (ℕ × PhaseData)) (hids : ∀ pp ∈ phases, pp.1 ≠ 0)
    (hrule : ∃ pp ∈ phases, pp.2.labRanges.isSome ∨ pp.2.bcZone ≠ []) :
    classify_image conv image phases
      = .ok (gridMap (classifyPixel conv phases) image) := by
  unfold classify_image
  have hcond : ((phases.any fun pp => pp.2.labRanges.isSome)
      || (phases.any fun pp => !pp.2.bcZone.isEmpty)) = true := by
    rcases hrule with ⟨pp, hmem, hpp⟩
    rcases hpp with h | h
    · exact Bool.or_eq_true_iff.mpr (Or.inl (List.any_eq_true.mpr ⟨pp, hmem, h⟩))
    · refine Bool.or_eq_true_iff.mpr (Or.inr (List.any_eq_true.mpr ⟨pp, hmem, ?_⟩))
      cases hc : pp.2.bcZone with
      | nil => exact absurd hc h
      | cons v vs => rfl
  rw [if_pos hcond]
  rw [classify_foldl conv image phases hids (fun _ => 0)]
  apply congrArg Except.ok
  apply gridMap_congr_fun
  intro px
  exact pixelStep_foldl_eq_classifyPixel conv px phases hids

/-! ## Aggregation engine

calculate_areal_fractions (lines 243-267) and calculate_x_distribution
(lines 269-324).  The Python functions build dicts keyed by the phase id
strings plus "0"; they are modelled as association lists in the same
order: the per-phase entries first, the unclassified entry last. -/

/-- calculate_areal_fractions (lines 243-267): per phase,
(count / total_pixels) * 100, then the unclassified "0" entry. -/
def calculate_areal_fractions (classified : Grid ℕ) (phases : List (ℕ × PhaseData)) :
    List (ℕ × ℚ) :=
  (phases.map (fun pp =>
    (pp.1, ((classified.flatten.count pp.1 : ℚ) / (classified.flatten.length : ℚ)) * 100)))
    ++ [(0, ((classified.flatten.count 0 : ℚ) / (classified.flatten.length : ℚ)) * 100)]

lemma sum_ite_eq_count (v : ℕ) (ids : List ℕ) :
    (ids.map (fun p => if v = p then 1 else 0)).sum = ids.count v := by
  induction ids with
  | nil => rfl
  | cons a t ih =>
    rw [List.count_cons]
    by_cases ha : a = v
    · simp [ha, ih, Nat.add_comm]
    · simp [ha, Ne.symm ha, ih]

/-- Each raster cell is counted exactly once across the configured ids and
the reserved id 0. -/
lemma count_partition (l : List ℕ) (ids : List ℕ) (hnd : ids.Nodup) (h0 : 0 ∉ ids)
    (hv : ∀ v ∈ l, v = 0 ∨ v ∈ ids) :
    (ids.map (fun p => l.count p)).sum + l.count 0 = l.length := by
  induction l with
  | nil => simp
  | cons v t ih =>
    have hvt : ∀ w ∈ t, w = 0 ∨ w ∈ ids := fun w hw => hv w (List.mem_cons_of_mem v hw)
    have hrec := ih hvt
    have hstep : (ids.map (fun p => (v :: t).count p)).sum
        = (ids.map (fun p => t.count p)).sum + ids.count v := by
      rw [← sum_ite_eq_count v ids]
      have hmc : ids.map (fun p => (v :: t).count p)
          = ids.map (fun p => t.count p + if v = p then 1 else 0) := by
        apply List.map_congr_left
        intro p _
        rw [List.count_cons]
        simp
      rw [hmc, ← List.sum_map_add]
    rcases hv v (List.mem_cons_self v t) with hv0 | hvin
    · subst hv0
      have hc : ids.count 0 = 0 := List.count_eq_zero.mpr h0
      rw [hstep, hc, List.count_cons_self, List.length_cons]
      omega
    · have hvne : (0 : ℕ) ≠ v := fun hc => h0 (hc ▸ hvin)
      have hc1 : ids.count v = 1 := List.count_eq_one_of_mem hnd hvin
      rw [hstep, hc1, List.count_cons_of_ne hvne, List.length_cons]
      omega

lemma sum_map_div_mul (c : ℕ → ℕ) (ids : List ℕ) (T : ℚ) :
    (ids.map (fun p => ((c p : ℚ) / T) * 100)).sum
      = (((ids.map c).sum : ℚ) / T) * 100 := by
  induction ids with
  | nil => simp
  | cons a t ih =>
    simp only [List.map_cons, List.sum_cons, ih]
    push_cast
    ring

/-- The per-id percentages of a raster whose values all lie in the
configured ids or 0 sum to exactly 100. -/
lemma frac_sum (l : List ℕ) (ids : List ℕ) (hnd : ids.Nodup) (h0 : 0 ∉ ids)
    (hv : ∀ v ∈ l, v = 0 ∨ v ∈ ids) (hlen : 0 < l.length) :
    (ids.map (fun p => ((l.count p : ℚ) / (l.length : ℚ)) * 100)).sum
      + ((l.count 0 : ℚ) / (l.length : ℚ)) * 100 = 100 := by
  rw [sum_map_div_mul]
  have hT : (l.length : ℚ) ≠ 0 := (Nat.cast_pos.mpr hlen).ne'
  have hcount := count_partition l ids hnd h0 hv
  have h2 : (((ids.map (fun p => l.count p)).sum : ℕ) : ℚ)
      = (l.length : ℚ) - (l.count 0 : ℚ) := by
    rw [← hcount]
    push_cast
    ring
  rw [h2]
  field_simp
  ring

lemma lookup_map_pairs {β : Type} (f : ℕ × PhaseData → β) :
    ∀ (ps : List (ℕ × PhaseData)) (pp : ℕ × PhaseData), pp ∈ ps →
      (ps.map Prod.fst).Nodup →
      List.lookup pp.1 (ps.map (fun q => (q.1, f q))) = some (f pp) := by
  intro ps
  induction ps with
  | nil => intro pp hmem; exact absurd hmem (List.not_mem_nil pp)
  | cons q t ih =>
    intro pp hmem hnd
    simp only [List.map_cons, List.nodup_cons] at hnd
    rcases List.mem_cons.mp hmem with heq | htail
    · subst heq
      simp [List.lookup]
    · have hne : pp.1 ≠ q.1 := by
        intro hc
        exact hnd.1 (hc ▸ List.mem_map_of_mem Prod.fst htail)
      have hbeq : (pp.1 == q.1) = false := by simpa using hne
      simp only [List.map_cons, List.lookup, hbeq]
      exact ih pp htail hnd.2

lemma lookup_map_pairs_none {β : Type} (f : ℕ × PhaseData → β) :
    ∀ (ps : List (ℕ × PhaseData)) (k : ℕ), k ∉ ps.map Prod.fst →
      List.lookup k (ps.map (fun q => (q.1, f q))) = none := by
  intro ps
  induction ps with
  | nil => intro k _; rfl
  | cons q t ih =>
    intro k hk
    simp only [List.map_cons, List.mem_cons] at hk
    push_neg at hk
    have hbeq : (k == q.1) = false := by simpa using hk.1
    simp only [List.map_cons, List.lookup, hbeq]
    exact ih k hk.2

lemma lookup_append_left {β : Type} (k : ℕ) (v : β) :
    ∀ (l1 l2 : List (ℕ × β)), List.lookup k l1 = some v →
      List.lookup k (l1 ++ l2) = some v := by
  intro l1
  induction l1 with
  | nil => intro l2 h; exact absurd h (by simp [List.lookup])
  | cons q t ih =>
    intro l2 h
    cases hk : (k == q.1) with
    | true =>
      simp only [List.lookup, hk] at h
      simp only [List.cons_append, List.lookup, hk]
      exact h
    | false =>
      simp only [List.lookup, hk] at h
      simp only [List.cons_append, List.lookup, hk]
      exact ih l2 h

lemma lookup_append_right {β : Type} (k : ℕ) :
    ∀ (l1 l2 : List (ℕ × β)), List.lookup k l1 = none →
      List.lookup k (l1 ++ l2) = List.lookup k l2 := by
  intro l1
  induction l1 with
  | nil => intro l2 _; rfl
  | cons q t ih =>
    intro l2 h
    cases hk : (k == q.1) with
    | true =>
      simp only [List.lookup, hk] at h
      exact absurd h (by simp)
    | false =>
      simp only [List.lookup, hk] at h
      simp only [List.cons_append, List.lookup, hk]
      exact ih l2 h

/-- Column start of bin idx: int(bin_idx * bin_width) with
bin_width = width / actual_bins, truncated toward zero (the operand is
nonnegative, so this is the floor). -/
def binStart (width bins i : ℕ) : ℕ :=
  (⌊(i : ℚ) * ((width : ℚ) / (bins : ℚ))⌋).toNat

/-- The vertical slice classified[:, x_start:x_end] of bin i. -/
def binSlice (classified : Grid ℕ) (width bins i : ℕ) : Grid ℕ :=
  classified.map (fun row =>
    (row.drop (binStart width bins i)).take (binStart width bins (i + 1) - binStart width bins i))

/-- Per-bin fraction of one id (lines 306-322): an empty slice reports 0.0
for every id; otherwise (count / total_pixels) * 100. -/
def binFraction (classified : Grid ℕ) (width bins pid i : ℕ) : ℚ :=
  if (binSlice classified width bins i).flatten.length = 0 then 0
  else (((binSlice classified width bins i).flatten.count pid : ℚ)
    / ((binSlice classified width bins i).flatten.length : ℚ)) * 100

/-- Result record of calculate_x_distribution: the dict with keys
xPositions and phaseFractions. -/
structure XDistribution where
  xPositions : List ℚ
  phaseFractions : List (ℕ × List ℚ)
deriving DecidableEq

/-- calculate_x_distribution (lines 269-324).  The source loops over bins
and appends one value to every entry of the phaseFractions dict per bin;
building each per-id list by one map over the bin indices yields exactly
those lists.  The physical X position of a bin is
x0 + (pixel_x / width) * (x1 - x0) with pixel_x = (x_start + x_end) / 2. -/
def calculate_x_distribution (classified : Grid ℕ) (phases : List (ℕ × PhaseData))
    (x0 x1 : ℚ) (width : ℕ) (num_bins : ℕ) : XDistribution :=
  { xPositions := (List.range (min num_bins width)).map (fun i =>
      x0 + (((binStart width (min num_bins width) i : ℚ)
        + (binStart width (min num_bins width) (i + 1) : ℚ)) / 2 / (width : ℚ)) * (x1 - x0)),
    phaseFractions :=
      (phases.map (fun pp => (pp.1, (List.range (min num_bins width)).map
        (fun i => binFraction classified width (min num_bins width) pp.1 i))))
      ++ [(0, (List.range (min num_bins width)).map
        (fun i => binFraction classified width (min num_bins width) 0 i))] }

lemma binSlice_flatten_subset (classified : Grid ℕ) (width bins i : ℕ) :
    ∀ v ∈ (binSlice classified width bins i).flatten, v ∈ classified.flatten := by
  intro v hv
  rw [List.mem_flatten] at hv ⊢
  rcases hv with ⟨r, hr, hvr⟩
  unfold binSlice at hr
  rcases List.mem_map.mp hr with ⟨row, hrow, heq⟩
  refine ⟨row, hrow, ?_⟩
  subst heq
  exact List.drop_subset _ row (List.take_subset _ _ hvr)

/-! ## Job management (lines 395-612)

The in-memory registry self.active_jobs is an association list from job
id to job record, threaded explicitly.  The per-image imaging pipeline of
process_single_image (base64 decode, PIL load, color conversion,
classification, rendering) runs through external libraries; an ImageData
therefore carries its outcome: ok with the result (an opaque token
standing for the per-image result record) or error with the exception
message.  Everything the source does around that pipeline - validation,
progress updates, result collection, status transitions, error capture -
is embedded from the code. -/

/-- The progress dict of a job: current, total and a status text. -/
structure Progress where
  current : ℕ
  total : ℕ
  statusText : String
deriving DecidableEq

/-- A job record of active_jobs (created in create_job, lines 544-554). -/
structure Job where
  id : String
  status : String
  progress : Progress
  results : List String
  createdAt : String
  error : Option String := none
deriving DecidableEq

/-- The registry self.active_jobs. -/
abbrev Store := List (String × Job)

/-- Dict assignment active_jobs[k] = j: replace the entry in place, or
append a new one. -/
def setJob : Store → String → Job → Store
  | [], k, j => [(k, j)]
  | (k0, j0) :: rest, k, j =>
    if k0 = k then (k, j) :: rest else (k0, j0) :: setJob rest k j

/-- The fresh job record built by create_job and by the silent recreation
in process_batch: status pending, progress zeroed, no results. -/
def freshJob (jobId now : String) : Job :=
  { id := jobId, status := "pending",
    progress := { current := 0, total := 0, statusText := "Initializing..." },
    results := [], createdAt := now, error := none }

/-- create_job (lines 544-554).  The uuid and timestamp are inputs of the
model; the Python method generates them internally. -/
def create_job (store : Store) (jobId now : String) : Store :=
  setJob store jobId (freshJob jobId now)

/-- Reply of get_job_status: the job dict itself, or the literal
dictionary with the single entry status = "not_found". -/
inductive StatusReply where
  | found (j : Job)
  | notFound
deriving DecidableEq

/-- get_job_status (lines 556-558): active_jobs.get(job_id, the not-found
dict).  The returned store is unchanged, mirroring that dict.get neither
inserts nor mutates. -/
def get_job_status (store : Store) (jobId : String) : StatusReply × Store :=
  (match List.lookup jobId store with
    | some j => StatusReply.found j
    | none => StatusReply.notFound,
   store)

/-- One input image of a batch with the outcome of its imaging pipeline. -/
structure ImageData where
  name : String
  outcome : Except String String

/-- The classification validation at the top of process_single_image
(lines 411-441).  The argument none models a falsy config or one without
a phases key (source message: Invalid classification: missing 'phases').
A phase counts as valid when it has truthy labRanges or a nonempty
bcZone; zero valid phases is an error. -/
def validate_classification :
    Option (List (ℕ × PhaseData)) → Except String (List (ℕ × PhaseData))
  | none => .error "Invalid classification: missing phases"
  | some phases =>
    if phases.isEmpty then .error "Classification has no phases defined"
    else if phases.countP (fun pp => pp.2.labRanges.isSome || !pp.2.bcZone.isEmpty) = 0 then
      .error "No phases have classification data. Each phase must have either LAB ranges or B/C zone defined."
    else .ok phases

/-- active_jobs[job_id]["progress"] = ... (lines 447-452).  A missing key
would raise KeyError in Python; that path is unreachable from
process_batch, which ensures the job exists first. -/
def setProgress (store : Store) (jobId : String) (pr : Progress) : Store :=
  match List.lookup jobId store with
  | some j => setJob store jobId { j with progress := pr }
  | none => store

/-- process_single_image (lines 395-542), job-visible behavior: validate
the classification, then set progress to current = index + 1 with the
Processing status text, then run the imaging pipeline (the outcome). -/
def process_single_image (store : Store) (cfg : Option (List (ℕ × PhaseData)))
    (img : ImageData) (jobId : String) (i total : ℕ) : Store × Except String String :=
  match validate_classification cfg with
  | .error e => (store, .error e)
  | .ok _ =>
    (setProgress store jobId
      { current := i + 1, total := total, statusText := "Processing " ++ img.name ++ "..." },
     img.outcome)

/-- The except handler of process_batch (lines 603-612): mark the job
failed and store str(e) verbatim, when the job exists. -/
def failJob (store : Store) (jobId : String) (e : String) : Store :=
  match List.lookup jobId store with
  | some j => setJob store jobId { j with status := "failed", error := some e }
  | none => store

/-- The success epilogue of process_batch (lines 597-599): status
completed, store the collected results, progress status text Complete!. -/
def completeJob (store : Store) (jobId : String) (results : List String) : Store :=
  match List.lookup jobId store with
  | some j => setJob store jobId
      { j with
        status := "completed"
        results := results
        progress := { j.progress with statusText := "Complete!" } }
  | none => store

/-- The image loop of process_batch (lines 587-599) together with its
success epilogue and exception handler.  Results accumulate in the local
list acc and reach the job record only in the success epilogue; an error
aborts the loop, marks the job failed and re-raises. -/
def processImages (cfg : Option (List (ℕ × PhaseData))) (jobId : String) (total : ℕ) :
    Store → List String → ℕ → List ImageData → Store × Except String (List String)
  | store, acc, _, [] => (completeJob store jobId acc, .ok acc)
  | store, acc, i, img :: rest =>
    match process_single_image store cfg img jobId i total with
    | (store2, .ok r) => processImages cfg jobId total store2 (acc ++ [r]) (i + 1) rest
    | (store2, .error e) => (failJob store2 jobId e, .error e)

/-- process_batch (lines 560-612): silently recreate a missing job, mark
it processing, set progress.total, then run the image loop. -/
def process_batch (store : Store) (jobId : String) (images : List ImageData)
    (cfg : Option (List (ℕ × PhaseData))) (now : String) :
    Store × Except String (List String) :=
  let store0 := match List.lookup jobId store with
    | some _ => store
    | none => setJob store jobId (freshJob jobId now)
  let store1 := match List.lookup jobId store0 with
    | some j => setJob store0 jobId
        { j with
          status := "processing"
          progress := { j.progress with total := images.length } }
    | none => store0
  processImages cfg jobId images.length store1 [] 0 images

/-- create_export_zip (lines 614-670).  The gate: a missing job or one
whose status is not completed raises ValueError("Job not found or not
completed").  The archive is modelled by its entry names -
batch_results.csv, one originals/ and one classified/ entry per stored
result, and metadata.json; the binary contents are produced by external
imaging libraries.  The store is returned unchanged: the method only
reads the registry. -/
def create_export_zip (store : Store) (jobId : String) :
    Except String (List String) × Store :=
  (match List.lookup jobId store with
    | none => .error "Job not found or not completed"
    | some job =>
      if job.status ≠ "completed" then .error "Job not found or not completed"
      else .ok (["batch_results.csv"]
        ++ job.results.map (fun r => "originals/" ++ r)
        ++ job.results.map (fun r => "classified/" ++ r)
        ++ ["metadata.json"]),
   store)

lemma lookup_setJob_self : ∀ (s : Store) (k : String) (j : Job),
    List.lookup k (setJob s k j) = some j := by
  intro s
  induction s with
  | nil =>
    intro k j
    simp [setJob, List.lookup]
  | cons q t ih =>
    intro k j
    by_cases hk : q.1 = k
    · simp [setJob, hk, List.lookup]
    · simp only [setJob]
      rw [if_neg hk]
      have hbeq : (k == q.1) = false := by simpa using (Ne.symm hk)
      simp only [List.lookup, hbeq]
      exact ih k j

lemma process_batch_reduce (store : Store) (jobId now : String)
    (images : List ImageData) (cfg : Option (List (ℕ × PhaseData))) (j : Job)
    (hlook : List.lookup jobId store = some j) :
    process_batch store jobId images cfg now
      = processImages cfg jobId images.length
          (setJob store jobId
            { j with
              status := "processing"
              progress := { j.progress with total := images.length } })
          [] 0 images := by
  simp only [process_batch, hlook, lookup_setJob_self]

/-- When the configuration is valid and every image of the batch succeeds,
the loop completes the job: results stored, progress.current advanced once
per image, status completed. -/
lemma processImages_ok (cfg : Option (List (ℕ × PhaseData)))
    (ps : List (ℕ × PhaseData)) (jobId : String) (total : ℕ)
    (hval : validate_classification cfg = .ok ps) :
    ∀ (images : List ImageData) (outs : List String) (store : Store)
      (acc : List String) (i : ℕ) (j : Job),
      images.map ImageData.outcome = outs.map Except.ok →
      List.lookup jobId store = some j →
      j.progress.current = i →
      j.progress.total = total →
      (processImages cfg jobId total store acc i images).2 = .ok (acc ++ outs)
      ∧ ∃ j2, List.lookup jobId (processImages cfg jobId total store acc i images).1
          = some j2
        ∧ j2.status = "completed"
        ∧ j2.progress.current = i + images.length
        ∧ j2.progress.total = total
        ∧ j2.results = acc ++ outs := by
  intro images
  induction images with
  | nil =>
    intro outs store acc i j hout hlook hcur htot
    have houts : outs = [] := by
      cases outs with
      | nil => rfl
      | cons a t => simp at hout
    subst houts
    simp only [processImages, List.append_nil, List.length_nil, Nat.add_zero]
    refine ⟨by trivial, ?_⟩
    unfold completeJob
    rw [hlook]
    exact ⟨_, lookup_setJob_self _ _ _, rfl, hcur, htot, rfl⟩
  | cons img rest ih =>
    intro outs store acc i j hout hlook hcur htot
    cases outs with
    | nil => simp at hout
    | cons r outs2 =>
      simp only [List.map_cons, List.cons.injEq] at hout
      have hps : process_single_image store cfg img jobId i total
          = (setJob store jobId
              { j with progress :=
                { current := i + 1, total := total,
                  statusText := "Processing " ++ img.name ++ "..." } },
             img.outcome) := by
        unfold process_single_image
        rw [hval]
        unfold setProgress
        rw [hlook]
      have hred : processImages cfg jobId total store acc i (img :: rest)
          = processImages cfg jobId total
              (setJob store jobId
                { j with progress :=
                  { current := i + 1, total := total,
                    statusText := "Processing " ++ img.name ++ "..." } })
              (acc ++ [r]) (i + 1) rest := by
        simp only [processImages, hps, hout.1]
      rw [hred]
      obtain ⟨h2a, j2, h2b, h2c, h2d, h2e, h2f⟩ :=
        ih outs2
          (setJob store jobId
            { j with progress :=
              { current := i + 1, total := total,
                statusText := "Processing " ++ img.name ++ "..." } })
          (acc ++ [r]) (i + 1)
          { j with progress :=
            { current := i + 1, total := total,
              statusText := "Processing " ++ img.name ++ "..." } }
          hout.2 (lookup_setJob_self _ _ _) rfl rfl
      have happ : (acc ++ [r]) ++ outs2 = acc ++ (r :: outs2) := by simp
      rw [happ] at h2a h2f
      refine ⟨h2a, j2, h2b, h2c, ?_, h2e, h2f⟩
      rw [h2d, List.length_cons]
      omega

/-- When the configuration is valid, the first failing image aborts the
batch: the job is failed, the message stored verbatim, progress stalled at
the failing image, and the job's stored results untouched. -/
lemma processImages_fail (cfg : Option (List (ℕ × PhaseData)))
    (ps : List (ℕ × PhaseData)) (jobId : String) (total : ℕ)
    (hval : validate_classification cfg = .ok ps) :
    ∀ (pre : List ImageData) (preOuts : List String) (img : ImageData)
      (post : List ImageData) (e : String) (store : Store) (acc : List String)
      (i : ℕ) (j : Job),
      pre.map ImageData.outcome = preOuts.map Except.ok →
      img.outcome = .error e →
      List.lookup jobId store = some j →
      (processImages cfg jobId total store acc i (pre ++ img :: post)).2 = .error e
      ∧ ∃ j2, List.lookup jobId
            (processImages cfg jobId total store acc i (pre ++ img :: post)).1
          = some j2
        ∧ j2.status = "failed"
        ∧ j2.error = some e
        ∧ j2.progress.current = i + pre.length + 1
        ∧ j2.progress.total = total
        ∧ j2.results = j.results := by
  intro pre
  induction pre with
  | nil =>
    intro preOuts img post e store acc i j hpre himg hlook
    have hps : process_single_image store cfg img jobId i total
        = (setJob store jobId
            { j with progress :=
              { current := i + 1, total := total,
                statusText := "Processing " ++ img.name ++ "..." } },
           img.outcome) := by
      unfold process_single_image
      rw [hval]
      unfold setProgress
      rw [hlook]
    have hred : processImages cfg jobId total store acc i ([] ++ img :: post)
        = (failJob (setJob store jobId
            { j with progress :=
              { current := i + 1, total := total,
                statusText := "Processing " ++ img.name ++ "..." } }) jobId e,
           .error e) := by
      simp only [List.nil_append, processImages, hps, himg]
    rw [hred]
    refine ⟨rfl, ?_⟩
    unfold failJob
    rw [lookup_setJob_self]
    refine ⟨_, lookup_setJob_self _ _ _, rfl, rfl, ?_, rfl, rfl⟩
    simp
  | cons p pre2 ih =>
    intro preOuts img post e store acc i j hpre himg hlook
    cases preOuts with
    | nil => simp at hpre
    | cons r preOuts2 =>
      simp only [List.map_cons, List.cons.injEq] at hpre
      have hps : process_single_image store cfg p jobId i total
          = (setJob store jobId
              { j with progress :=
                { current := i + 1, total := total,
                  statusText := "Processing " ++ p.name ++ "..." } },
             p.outcome) := by
        unfold process_single_image
        rw [hval]
        unfold setProgress
        rw [hlook]
      have hred : processImages cfg jobId total store acc i ((p :: pre2) ++ img :: post)
          = processImages cfg jobId total
              (setJob store jobId
                { j with progress :=
                  { current := i + 1, total := total,
                    statusText := "Processing " ++ p.name ++ "..." } })
              (acc ++ [r]) (i + 1) (pre2 ++ img :: post) := by
        simp only [List.cons_append, processImages, hps, hpre.1, List.append_eq]
      rw [hred]
      obtain ⟨h2a, j2, h2b, h2c, h2d, h2e, h2f, h2g⟩ :=
        ih preOuts2 img post e
          (setJob store jobId
            { j with progress :=
              { current := i + 1, total := total,
                statusText := "Processing " ++ p.name ++ "..." } })
          (acc ++ [r]) (i + 1)
          { j with progress :=
            { current := i + 1, total := total,
              statusText := "Processing " ++ p.name ++ "..." } }
          hpre.2 himg (lookup_setJob_self _ _ _)
      refine ⟨h2a, j2, h2b, h2c, h2d, ?_, h2f, h2g⟩
      rw [h2e, List.length_cons]
      omega

/-- When the configuration itself fails validation, the batch fails on the
first image before any progress update: the job is failed, the validation
message stored verbatim, progress and results untouched. -/
lemma processImages_valfail (cfg : Option (List (ℕ × PhaseData)))
    (e : String) (jobId : String) (total : ℕ)
    (hval : validate_classification cfg = .error e) :
    ∀ (img : ImageData) (rest : List ImageData) (store : Store)
      (acc : List String) (i : ℕ) (j : Job),
      List.lookup jobId store = some j →
      (processImages cfg jobId total store acc i (img :: rest)).2 = .error e
      ∧ ∃ j2, List.lookup jobId
            (processImages cfg jobId total store acc i (img :: rest)).1 = some j2
        ∧ j2.status = "failed"
        ∧ j2.error = some e
        ∧ j2.progress = j.progress
        ∧ j2.results = j.results := by
  intro img rest store acc i j hlook
  have hps : process_single_image store cfg img jobId i total = (store, .error e) := by
    unfold process_single_image
    rw [hval]
  have hred : processImages cfg jobId total store acc i (img :: rest)
      = (failJob store jobId e, .error e) := by
    simp only [processImages, hps]
  rw [hred]
  refine ⟨rfl, ?_⟩
  unfold failJob
  rw [hlook]
  exact ⟨_, lookup_setJob_self _ _ _, rfl, rfl, rfl, rfl⟩

lemma find?_first {α : Type} (p : α → Bool) :
    ∀ (l : List α) (i : ℕ) (hi : i < l.length),
      p (l.get ⟨i, hi⟩) = true →
      (∀ k (hk : k < i), p (l.get ⟨k, Nat.lt_trans hk hi⟩) = false) →
      l.find? p = some (l.get ⟨i, hi⟩) := by
  intro l
  induction l with
  | nil => intro i hi; exact absurd hi (Nat.not_lt_zero i)
  | cons a t ih =>
    intro i hi hp hmin
    cases i with
    | zero =>
      simp only [List.get] at hp ⊢
      rw [List.find?_cons_of_pos t hp]
    | succ k =>
      have ha : p a = false := by
        have := hmin 0 (Nat.succ_pos k)
        simpa using this
      have hk2 : k < t.length := Nat.lt_of_succ_lt_succ hi
      have hp2 : p (t.get ⟨k, hk2⟩) = true := by simpa using hp
      have hmin2 : ∀ m (hm : m < k), p (t.get ⟨m, Nat.lt_trans hm hk2⟩) = false := by
        intro m hm
        have := hmin (m + 1) (Nat.succ_lt_succ hm)
        simpa using this
      rw [List.find?_cons_of_neg t (by simp [ha])]
      simpa using ih k hk2 hp2 hmin2

/-! ## Concrete fixtures used by witnesses and counterexamples -/

/-- A concrete stand-in conversion; the classification theorems hold for
every conversion function. -/
def demoConv : RGBToLabFn := fun _ => (0, 0, 0)

/-- A square zone in brightness/contrast space containing (20, 20). -/
def zoneSquare : List Vertex :=
  [{ brightness := 0, contrast := 0 }, { brightness := 100, contrast := 0 },
   { brightness := 100, contrast := 100 }, { brightness := 0, contrast := 100 }]

/-- A LAB window with Lmin = 5 and Lmax = 4: no L value satisfies
5 <= L <= 4, so this rule matches no pixel under any conversion. -/
def emptyLabWindow : LabRanges := { Lmin := some 5, Lmax := some 4 }

/-- Phase 1 declares (unsatisfiable) LAB ranges, phase 2 declares only a
zone; so use_lab is true while phase 2 still classifies by its zone. -/
def phasesLabAndZone : List (ℕ × PhaseData) :=
  [(1, { name := "alpha", labRanges := some emptyLabWindow }),
   (2, { name := "beta", bcZone := zoneSquare })]

/-- A degenerate two-vertex zone. -/
def zoneSegment : List Vertex :=
  [{ brightness := 0, contrast := 0 }, { brightness := 5, contrast := 5 }]

/-- A configuration whose single phase declares only the degenerate
two-vertex zone. -/
def phasesDegenerate : List (ℕ × PhaseData) :=
  [(1, { name := "alpha", bcZone := zoneSegment })]

/-- A triangle zone. -/
def zoneTriangle : List Vertex :=
  [{ brightness := 0, contrast := 0 }, { brightness := 10, contrast := 0 },
   { brightness := 0, contrast := 10 }]

/-- A valid one-phase zone configuration for the job-lifecycle fixtures. -/
def cfgTriangle : Option (List (ℕ × PhaseData)) :=
  some [(1, { name := "alpha", bcZone := zoneTriangle })]

lemma brightness_demo : brightnessOf (10, 20, 30) = 20 := by
  unfold brightnessOf
  norm_num

lemma contrast_demo : contrastOf (10, 20, 30) = 20 := by
  unfold contrastOf
  rw [show max (10 : ℕ) (max 20 30) = 30 from by decide,
    show min (10 : ℕ) (min 20 30) = 10 from by decide]
  norm_num

lemma labMatch_emptyWindow : labMatch emptyLabWindow (demoConv (10, 20, 30)) = false := by
  unfold labMatch emptyLabWindow demoConv
  apply decide_eq_false
  intro hc
  norm_num [Option.getD] at hc

lemma vpip_square : vpipPoint 20 20 zoneSquare = true := by
  have e1 : vpipEdge 20 20 ({ brightness := 0, contrast := 0 },
      { brightness := 100, contrast := 0 }) = false := by
    unfold vpipEdge
    rw [if_neg (show ¬((0 : ℚ) ≠ (0 : ℚ)) by norm_num)]
    apply decide_eq_false
    intro hc
    norm_num [min_def, max_def] at hc
  have e2 : vpipEdge 20 20 ({ brightness := 100, contrast := 0 },
      { brightness := 100, contrast := 100 }) = true := by
    unfold vpipEdge
    rw [if_pos (show ((0 : ℚ) ≠ (100 : ℚ)) by norm_num)]
    apply decide_eq_true
    norm_num [min_def, max_def, xInters]
  have e3 : vpipEdge 20 20 ({ brightness := 100, contrast := 100 },
      { brightness := 0, contrast := 100 }) = false := by
    unfold vpipEdge
    rw [if_neg (show ¬((100 : ℚ) ≠ (100 : ℚ)) by norm_num)]
    apply decide_eq_false
    intro hc
    norm_num [min_def, max_def] at hc
  have e4 : vpipEdge 20 20 ({ brightness := 0, contrast := 100 },
      { brightness := 0, contrast := 0 }) = false := by
    unfold vpipEdge
    rw [if_pos (show ((100 : ℚ) ≠ (0 : ℚ)) by norm_num)]
    apply decide_eq_false
    intro hc
    rw [xInters] at hc
    norm_num [min_def, max_def] at hc
  unfold vpipPoint zoneSquare polygonEdges
  simp only [List.zip, List.zipWith, List.foldl, e1, e2, e3, e4]
  rfl

lemma vpip_segment : vpipPoint 20 20 zoneSegment = false := by
  have e1 : vpipEdge 20 20 ({ brightness := 0, contrast := 0 },
      { brightness := 5, contrast := 5 }) = false := by
    unfold vpipEdge
    rw [if_pos (show ((0 : ℚ) ≠ (5 : ℚ)) by norm_num)]
    apply decide_eq_false
    intro hc
    norm_num [min_def, max_def] at hc
  have e2 : vpipEdge 20 20 ({ brightness := 5, contrast := 5 },
      { brightness := 0, contrast := 0 }) = false := by
    unfold vpipEdge
    rw [if_pos (show ((5 : ℚ) ≠ (0 : ℚ)) by norm_num)]
    apply decide_eq_false
    intro hc
    norm_num [min_def, max_def] at hc
  unfold vpipPoint zoneSegment polygonEdges
  simp only [List.zip, List.zipWith, List.foldl, e1, e2]
  rfl

lemma phaseMatch_alpha : phaseMatch demoConv
    { name := "alpha", labRanges := some emptyLabWindow } (10, 20, 30) = false := by
  unfold phaseMatch
  simp [labMatch_emptyWindow]

lemma phaseMatch_beta : phaseMatch demoConv
    { name := "beta", bcZone := zoneSquare } (10, 20, 30) = true := by
  unfold phaseMatch
  rw [brightness_demo, contrast_demo, vpip_square]
  simp [zoneSquare]

lemma phaseMatch_segment : phaseMatch demoConv
    { name := "alpha", bcZone := zoneSegment } (10, 20, 30) = false := by
  unfold phaseMatch
  rw [brightness_demo, contrast_demo, vpip_segment]
  simp

lemma classifyPixel_demo : classifyPixel demoConv phasesLabAndZone (10, 20, 30) = 2 := by
  unfold classifyPixel phasesLabAndZone
  rw [List.find?_cons_of_neg _ (by simp [phaseMatch_alpha]),
    List.find?_cons_of_pos _ (by simp [phaseMatch_beta])]

lemma classifyPixel_segment : classifyPixel demoConv phasesDegenerate (10, 20, 30) = 0 := by
  unfold classifyPixel phasesDegenerate
  rw [List.find?_cons_of_neg _ (by simp [phaseMatch_segment])]
  rfl

/-! ## Claim theorems -/

/-- C1 (amended): classify_image fails with the configuration error
exactly when no phase declares either rule type; otherwise it succeeds
and applies, for every phase, both that phase's LAB rule and its zone
rule (LAB first, zone on the still-unclassified remainder) - captured by
classifyPixel, whose per-phase match is the disjunction of the LAB test
and the zone test.  So zone rules stay live even when some phase declares
LAB ranges, and a phase declaring both rules has a live zone rule.  The
ids hypothesis reflects that the raster dtype uint8 stores ids 1..255. -/
theorem classify_image_method_selection (conv : RGBToLabFn) (image : Grid Pixel)
    (phases : List (ℕ × PhaseData))
    (hids : ∀ pp ∈ phases, 1 ≤ pp.1 ∧ pp.1 ≤ 255) :
    ((∃ msg, classify_image conv image phases = .error msg)
      ↔ ∀ pp ∈ phases, pp.2.labRanges = none ∧ pp.2.bcZone = [])
    ∧ ((∃ pp ∈ phases, pp.2.labRanges.isSome ∨ pp.2.bcZone ≠ []) →
        classify_image conv image phases
          = .ok (gridMap (classifyPixel conv phases) image)) := by
  have h0 : ∀ pp ∈ phases, pp.1 ≠ 0 := fun pp h =>
    Nat.one_le_iff_ne_zero.mp (hids pp h).1
  constructor
  · constructor
    · rintro ⟨msg, hmsg⟩ pp hmem
      by_contra hcon
      rw [Classical.not_and_iff_or_not_not] at hcon
      have hrule : ∃ pp2 ∈ phases, pp2.2.labRanges.isSome ∨ pp2.2.bcZone ≠ [] := by
        refine ⟨pp, hmem, ?_⟩
        rcases hcon with h | h
        · exact Or.inl (Option.ne_none_iff_isSome.mp h)
        · exact Or.inr h
      rw [classify_image_eq_map conv image phases h0 hrule] at hmsg
      exact Except.noConfusion hmsg
    · intro hall
      refine ⟨"No classification method available (neither LAB nor B/C)", ?_⟩
      unfold classify_image
      have h1 : (phases.any fun pp => pp.2.labRanges.isSome) = false := by
        rw [List.any_eq_false]
        intro pp hmem
        rw [(hall pp hmem).1]
        simp
      have h2 : (phases.any fun pp => !pp.2.bcZone.isEmpty) = false := by
        rw [List.any_eq_false]
        intro pp hmem
        rw [(hall pp hmem).2]
        simp
      rw [h1, h2]
      simp
  · exact classify_image_eq_map conv image phases h0

/-- C1 witness: a configuration with one LAB phase and one zone phase has
a rule, so classification succeeds as the pointwise first-match map. -/
theorem classify_image_method_selection_witness :
    classify_image demoConv [[(10, 20, 30)]] phasesLabAndZone
      = .ok (gridMap (classifyPixel demoConv phasesLabAndZone) [[(10, 20, 30)]]) :=
  (classify_image_method_selection demoConv [[(10, 20, 30)]] phasesLabAndZone
    (by simp [phasesLabAndZone])).2
    ⟨(2, { name := "beta", bcZone := zoneSquare }), by simp [phasesLabAndZone],
      Or.inr (by simp [zoneSquare])⟩

/-- C1 counterexample: phase 1 declares LAB ranges (so use_lab holds and
the claim says no bcZone may assign any pixel), phase 2 declares only a
zone, and the single pixel - matched by no LAB rule under any conversion,
since the window 5 <= L <= 4 is empty - is assigned phase 2's id by the
zone rule: the raster is [[2]], not [[0]]. -/
theorem classify_image_global_lab_cex :
    (phasesLabAndZone.any fun pp => pp.2.labRanges.isSome) = true
    ∧ (phasesLabAndZone.map (fun pp => pp.2.bcZone.isEmpty)) = [true, false]
    ∧ classify_image demoConv [[(10, 20, 30)]] phasesLabAndZone = .ok [[2]] := by
  refine ⟨rfl, rfl, ?_⟩
  rw [classify_image_eq_map demoConv [[(10, 20, 30)]] phasesLabAndZone
    (by simp [phasesLabAndZone])
    ⟨(2, { name := "beta", bcZone := zoneSquare }), by simp [phasesLabAndZone],
      Or.inr (by simp [zoneSquare])⟩]
  unfold gridMap
  simp only [List.map_cons, List.map_nil, classifyPixel_demo]

/-- C2: the produced raster is the pointwise first-match map: each pixel
carries the id of the first phase in declaration order whose rule (LAB or
zone) matches it, 0 if none - so no later phase ever overwrites it; and
whenever phase i matches a pixel and no earlier phase does, the pixel
resolves to phase i's id.  The ids hypothesis reflects the uint8 raster. -/
theorem classify_image_write_once (conv : RGBToLabFn) (image : Grid Pixel)
    (phases : List (ℕ × PhaseData))
    (hids : ∀ pp ∈ phases, 1 ≤ pp.1 ∧ pp.1 ≤ 255)
    (hrule : ∃ pp ∈ phases, pp.2.labRanges.isSome ∨ pp.2.bcZone ≠ []) :
    classify_image conv image phases
      = .ok (gridMap (classifyPixel conv phases) image)
    ∧ ∀ (px : Pixel) (i : ℕ) (hi : i < phases.length),
        phaseMatch conv (phases.get ⟨i, hi⟩).2 px = true →
        (∀ k (hk : k < i), phaseMatch conv (phases.get ⟨k, Nat.lt_trans hk hi⟩).2 px = false) →
        classifyPixel conv phases px = (phases.get ⟨i, hi⟩).1 := by
  have h0 : ∀ pp ∈ phases, pp.1 ≠ 0 := fun pp h =>
    Nat.one_le_iff_ne_zero.mp (hids pp h).1
  refine ⟨classify_image_eq_map conv image phases h0 hrule, ?_⟩
  intro px i hi hp hmin
  unfold classifyPixel
  rw [find?_first (fun pp => phaseMatch conv pp.2 px) phases i hi hp hmin]

/-- C2 witness at a concrete image and configuration. -/
theorem classify_image_write_once_witness :
    classify_image demoConv [[(10, 20, 30)]] phasesLabAndZone
      = .ok (gridMap (classifyPixel demoConv phasesLabAndZone) [[(10, 20, 30)]])
    ∧ classifyPixel demoConv phasesLabAndZone (10, 20, 30) = 2 := by
  have hids : ∀ pp ∈ phasesLabAndZone, 1 ≤ pp.1 ∧ pp.1 ≤ 255 := by
    simp [phasesLabAndZone]
  have hrule : ∃ pp ∈ phasesLabAndZone, pp.2.labRanges.isSome ∨ pp.2.bcZone ≠ [] :=
    ⟨(2, { name := "beta", bcZone := zoneSquare }), by simp [phasesLabAndZone],
      Or.inr (by simp [zoneSquare])⟩
  refine ⟨(classify_image_write_once demoConv [[(10, 20, 30)]] phasesLabAndZone
    hids hrule).1, ?_⟩
  have h2 := (classify_image_write_once demoConv [[(10, 20, 30)]] phasesLabAndZone
    hids hrule).2 (10, 20, 30) 1 (by simp [phasesLabAndZone])
    (by simpa [phasesLabAndZone] using phaseMatch_beta)
    (fun k hk => by
      cases k with
      | zero => simpa [phasesLabAndZone] using phaseMatch_alpha
      | succ m => exact absurd hk (by omega))
  simpa [phasesLabAndZone] using h2

/-- C3: on equal-shape brightness and contrast rasters the vectorized
point-in-polygon mask equals the pixelwise application of the scalar
ray-casting reference, for every polygon (convex, concave, with
horizontal collinear edges alike); the nonemptiness hypothesis restricts
the statement to inputs on which the Python scalar reference is defined. -/
theorem vectorized_pip_matches_scalar (polygon : List Vertex)
    (brightness_img contrast_img : Grid ℚ)
    (hpoly : polygon ≠ [])
    (hshape : SameShape brightness_img contrast_img) :
    vectorized_point_in_polygon brightness_img contrast_img polygon
      = gridZip (fun b c => point_in_polygon b c polygon) brightness_img contrast_img := by
  rw [vectorized_eq_gridZip_vpipPoint _ _ _ hshape]
  congr 1
  funext b c
  exact (point_in_polygon_eq_vpipPoint b c polygon).symm

/-- C3 witness on a concrete triangle and a concrete 1 x 2 raster pair. -/
theorem vectorized_pip_matches_scalar_witness :
    vectorized_point_in_polygon [[2, 50]] [[3, 1]] zoneTriangle
      = gridZip (fun b c => point_in_polygon b c zoneTriangle) [[2, 50]] [[3, 1]] :=
  vectorized_pip_matches_scalar zoneTriangle [[2, 50]] [[3, 1]] (by decide) rfl

/-- C4: when every pixel value is 0 or one of the (distinct, nonzero)
configured ids and the raster is nonempty, each configured id is reported
as 100 * count / total and all reported fractions, the unclassified "0"
entry included, sum to exactly 100. -/
theorem calculate_areal_fractions_sum (classified : Grid ℕ)
    (phases : List (ℕ × PhaseData))
    (hpos : 0 < classified.flatten.length)
    (hnd : (phases.map Prod.fst).Nodup)
    (h0 : 0 ∉ phases.map Prod.fst)
    (hv : ∀ v ∈ classified.flatten, v = 0 ∨ v ∈ phases.map Prod.fst) :
    (∀ pp ∈ phases,
      List.lookup pp.1 (calculate_areal_fractions classified phases)
        = some (100 * (classified.flatten.count pp.1 : ℚ)
            / (classified.flatten.length : ℚ)))
    ∧ ((calculate_areal_fractions classified phases).map Prod.snd).sum = 100 := by
  constructor
  · intro pp hmem
    unfold calculate_areal_fractions
    rw [lookup_append_left _ _ _ _
      (lookup_map_pairs
        (fun q => ((classified.flatten.count q.1 : ℚ)
          / (classified.flatten.length : ℚ)) * 100) phases pp hmem hnd)]
    congr 1
    ring
  · unfold calculate_areal_fractions
    rw [List.map_append, List.sum_append, List.map_map]
    simp only [List.map_cons, List.map_nil, List.sum_cons, List.sum_nil, add_zero]
    have hmap : phases.map ((fun q : ℕ × ℚ => q.2) ∘
        (fun pp => (pp.1, ((classified.flatten.count pp.1 : ℚ)
          / (classified.flatten.length : ℚ)) * 100)))
        = (phases.map Prod.fst).map
          (fun p => ((classified.flatten.count p : ℚ)
            / (classified.flatten.length : ℚ)) * 100) := by
      rw [List.map_map]
      rfl
    rw [hmap]
    exact frac_sum classified.flatten (phases.map Prod.fst) hnd h0 hv hpos

/-- C4 witness: a concrete 2 x 2 raster with two phases. -/
theorem calculate_areal_fractions_sum_witness :
    ((calculate_areal_fractions [[1, 1], [0, 2]]
      [(1, { name := "alpha" }), (2, { name := "beta" })]).map Prod.snd).sum = 100 :=
  (calculate_areal_fractions_sum [[1, 1], [0, 2]]
    [(1, { name := "alpha" }), (2, { name := "beta" })]
    (by decide) (by decide) (by decide) (by decide)).2

/-- C5 (amended): a job returned by create_job is pending with zeroed
progress; a batch in which the configuration validates and every image
succeeds completes the job with progress.current = progress.total = N and
returns the results; when the per-image work of the (k+1)-st image raises
after k successes, the job is failed with the message stored verbatim and
progress.current stalled at k + 1 (set before the failing work started);
when the configuration validation itself fails, the batch fails at the
first image with progress.current still 0 - not 1 - because validation
precedes the progress update in process_single_image. -/
theorem job_lifecycle (store : Store) (jobId now : String)
    (images : List ImageData) (cfg : Option (List (ℕ × PhaseData))) :
    (∃ j, List.lookup jobId (create_job store jobId now) = some j
      ∧ j.status = "pending" ∧ j.progress.current = 0 ∧ j.progress.total = 0)
    ∧ (∀ ps outs, validate_classification cfg = .ok ps →
        images.map ImageData.outcome = outs.map Except.ok →
        ∃ j2, List.lookup jobId
            (process_batch (create_job store jobId now) jobId images cfg now).1 = some j2
          ∧ j2.status = "completed"
          ∧ j2.progress.current = images.length
          ∧ j2.progress.total = images.length
          ∧ (process_batch (create_job store jobId now) jobId images cfg now).2
              = .ok outs)
    ∧ (∀ (ps : List (ℕ × PhaseData)) (preOuts : List String) (pre : List ImageData)
        (img : ImageData) (post : List ImageData) (e : String),
        validate_classification cfg = .ok ps →
        pre.map ImageData.outcome = preOuts.map Except.ok →
        img.outcome = .error e →
        ∃ j2, List.lookup jobId
            (process_batch (create_job store jobId now) jobId (pre ++ img :: post) cfg
              now).1 = some j2
          ∧ j2.status = "failed" ∧ j2.error = some e
          ∧ j2.progress.current = pre.length + 1)
    ∧ (∀ e img rest, validate_classification cfg = .error e →
        ∃ j2, List.lookup jobId
            (process_batch (create_job store jobId now) jobId (img :: rest) cfg now).1
            = some j2
          ∧ j2.status = "failed" ∧ j2.error = some e ∧ j2.progress.current = 0) := by
  have hfresh : List.lookup jobId (create_job store jobId now)
      = some (freshJob jobId now) :=
    lookup_setJob_self store jobId (freshJob jobId now)
  refine ⟨⟨freshJob jobId now, hfresh, rfl, rfl, rfl⟩, ?_, ?_, ?_⟩
  · intro ps outs hval hout
    rw [process_batch_reduce (create_job store jobId now) jobId now images cfg
      (freshJob jobId now) hfresh]
    obtain ⟨ha, j2, hb, hc, hd, he, hf⟩ :=
      processImages_ok cfg ps jobId images.length hval images outs _ [] 0
        { freshJob jobId now with
          status := "processing"
          progress := { (freshJob jobId now).progress with total := images.length } }
        hout (lookup_setJob_self _ _ _) rfl rfl
    exact ⟨j2, hb, hc, by simpa using hd, he, by simpa using ha⟩
  · intro ps preOuts pre img post e hval hpre himg
    rw [process_batch_reduce (create_job store jobId now) jobId now (pre ++ img :: post)
      cfg (freshJob jobId now) hfresh]
    obtain ⟨ha, j2, hb, hc, hd, he, hf, hg⟩ :=
      processImages_fail cfg ps jobId (pre ++ img :: post).length hval pre preOuts img
        post e _ [] 0
        { freshJob jobId now with
          status := "processing"
          progress := { (freshJob jobId now).progress with
            total := (pre ++ img :: post).length } }
        hpre himg (lookup_setJob_self _ _ _)
    exact ⟨j2, hb, hc, hd, by simpa using he⟩
  · intro e img rest hval
    rw [process_batch_reduce (create_job store jobId now) jobId now (img :: rest) cfg
      (freshJob jobId now) hfresh]
    obtain ⟨ha, j2, hb, hc, hd, he, hf⟩ :=
      processImages_valfail cfg e jobId (img :: rest).length hval img rest _ [] 0
        { freshJob jobId now with
          status := "processing"
          progress := { (freshJob jobId now).progress with total := (img :: rest).length } }
        (lookup_setJob_self _ _ _)
    refine ⟨j2, hb, hc, hd, ?_⟩
    rw [he]
    rfl

/-- C5 witness: a one-image batch under a valid zone configuration
returns its result token. -/
theorem job_lifecycle_witness :
    (process_batch (create_job [] "J" "t0") "J"
      [{ name := "a.png", outcome := Except.ok "r1" }] cfgTriangle "t0").2
      = .ok ["r1"] := by
  obtain ⟨-, h2, -, -⟩ := job_lifecycle [] "J" "t0"
    [{ name := "a.png", outcome := Except.ok "r1" }] cfgTriangle
  obtain ⟨j2, -, -, -, -, hok⟩ :=
    h2 [(1, { name := "alpha", bcZone := zoneTriangle })] ["r1"] rfl rfl
  exact hok

/-- C5 counterexample: the claim says a batch in which processing image k
raises leaves progress.current stalled at k.  With a configuration that
fails validation (no phases), processing image 1 raises, yet
progress.current remains 0, because validation happens before the
progress update. -/
theorem job_lifecycle_validation_cex :
    List.lookup "J" (process_batch (create_job [] "J" "t0") "J"
        [{ name := "a.png", outcome := Except.ok "r1" }] (some []) "t0").1
      = some (Job.mk "J" "failed" (Progress.mk 0 1 "Initializing...") [] "t0"
          (some "Classification has no phases defined"))
    ∧ (0 : ℕ) ≠ 1 := by
  exact ⟨rfl, by omega⟩

/-- C6 (amended): progress.current is set to i + 1 (after configuration
validation) before the imaging work of image i runs - it holds even when
that work fails; but results accumulate only in a local list and are
stored into the job record solely by the success epilogue: an all-success
batch stores every result in order, while a batch whose later image fails
leaves the job's stored results as they were (empty for a fresh job),
losing the earlier completed results. -/
theorem progress_before_work (store : Store) (jobId now : String)
    (cfg : Option (List (ℕ × PhaseData))) (ps : List (ℕ × PhaseData))
    (hval : validate_classification cfg = .ok ps) :
    (∀ (st2 : Store) (j : Job) (img : ImageData) (i total : ℕ),
        List.lookup jobId st2 = some j →
        ∃ j2, List.lookup jobId (process_single_image st2 cfg img jobId i total).1
            = some j2
          ∧ j2.progress.current = i + 1 ∧ j2.progress.total = total)
    ∧ (∀ images outs, images.map ImageData.outcome = outs.map Except.ok →
        ∃ j2, List.lookup jobId
            (process_batch (create_job store jobId now) jobId images cfg now).1 = some j2
          ∧ j2.results = outs)
    ∧ (∀ (pre : List ImageData) (preOuts : List String) (img : ImageData)
        (post : List ImageData) (e : String),
        pre.map ImageData.outcome = preOuts.map Except.ok →
        img.outcome = .error e →
        ∃ j2, List.lookup jobId
            (process_batch (create_job store jobId now) jobId (pre ++ img :: post) cfg
              now).1 = some j2
          ∧ j2.status = "failed" ∧ j2.results = []) := by
  have hfresh : List.lookup jobId (create_job store jobId now)
      = some (freshJob jobId now) :=
    lookup_setJob_self store jobId (freshJob jobId now)
  refine ⟨?_, ?_, ?_⟩
  · intro st2 j img i total hlook
    unfold process_single_image
    rw [hval]
    unfold setProgress
    rw [hlook]
    exact ⟨_, lookup_setJob_self _ _ _, rfl, rfl⟩
  · intro images outs hout
    rw [process_batch_reduce (create_job store jobId now) jobId now images cfg
      (freshJob jobId now) hfresh]
    obtain ⟨ha, j2, hb, hc, hd, he, hf⟩ :=
      processImages_ok cfg ps jobId images.length hval images outs _ [] 0
        { freshJob jobId now with
          status := "processing"
          progress := { (freshJob jobId now).progress with total := images.length } }
        hout (lookup_setJob_self _ _ _) rfl rfl
    exact ⟨j2, hb, by simpa using hf⟩
  · intro pre preOuts img post e hpre himg
    rw [process_batch_reduce (create_job store jobId now) jobId now (pre ++ img :: post)
      cfg (freshJob jobId now) hfresh]
    obtain ⟨ha, j2, hb, hc, hd, he, hf, hg⟩ :=
      processImages_fail cfg ps jobId (pre ++ img :: post).length hval pre preOuts img
        post e _ [] 0
        { freshJob jobId now with
          status := "processing"
          progress := { (freshJob jobId now).progress with
            total := (pre ++ img :: post).length } }
        hpre himg (lookup_setJob_self _ _ _)
    exact ⟨j2, hb, hc, hg.trans rfl⟩

/-- C6 witness: even for an image whose work fails, process_single_image
has already set progress.current to index + 1. -/
theorem progress_before_work_witness :
    (List.lookup "J" (process_single_image [("J", freshJob "J" "t0")] cfgTriangle
        { name := "x.png", outcome := Except.error "boom" } "J" 0 1).1).map
      (fun j => j.progress.current) = some 1 := by
  obtain ⟨ha, -, -⟩ := progress_before_work [] "J" "t0" cfgTriangle
    [(1, { name := "alpha", bcZone := zoneTriangle })] rfl
  obtain ⟨j2, hl, hc, -⟩ := ha [("J", freshJob "J" "t0")] (freshJob "J" "t0")
    { name := "x.png", outcome := Except.error "boom" } 0 1 rfl
  rw [hl]
  simp [hc]

/-- C6 counterexample: in a two-image batch whose first image completes
and whose second fails, the claim says the job record holds the first
result; the code stores results only on success of the whole batch, so
the failed job's results list is empty. -/
theorem results_lost_on_failure_cex :
    List.lookup "J" (process_batch (create_job [] "J" "t0") "J"
        [{ name := "a.png", outcome := Except.ok "r1" },
         { name := "b.png", outcome := Except.error "boom" }] cfgTriangle "t0").1
      = some (Job.mk "J" "failed" (Progress.mk 2 2 "Processing b.png...") [] "t0"
          (some "boom"))
    ∧ ([] : List String) ≠ ["r1"] := by
  exact ⟨rfl, by simp⟩

/-- C7: create_export_zip raises the job-state error and produces no
archive for a job id that is missing or whose status is pending,
processing or failed; the registry is unchanged (the method only reads
it). -/
theorem create_export_zip_requires_completed (store : Store) (jobId : String)
    (h : List.lookup jobId store = none
      ∨ ∃ j, List.lookup jobId store = some j
          ∧ (j.status = "pending" ∨ j.status = "processing" ∨ j.status = "failed")) :
    (create_export_zip store jobId).1 = .error "Job not found or not completed"
    ∧ (create_export_zip store jobId).2 = store := by
  rcases h with hnone | ⟨j, hlook, hst⟩
  · unfold create_export_zip
    rw [hnone]
    exact ⟨rfl, rfl⟩
  · have hm : create_export_zip store jobId
        = (if j.status ≠ "completed" then .error "Job not found or not completed"
          else .ok (["batch_results.csv"]
            ++ j.results.map (fun r => "originals/" ++ r)
            ++ j.results.map (fun r => "classified/" ++ r)
            ++ ["metadata.json"]), store) := by
      unfold create_export_zip
      rw [hlook]
    have hne : j.status ≠ "completed" := by
      rcases hst with h1 | h1 | h1 <;> rw [h1] <;> decide
    rw [hm, if_pos hne]
    exact ⟨rfl, rfl⟩

/-- C7 witness: exporting a pending job fails with the job-state error and
leaves the store unchanged. -/
theorem create_export_zip_requires_completed_witness :
    (create_export_zip [("J", freshJob "J" "t0")] "J").1
        = .error "Job not found or not completed"
    ∧ (create_export_zip [("J", freshJob "J" "t0")] "J").2
        = [("J", freshJob "J" "t0")] :=
  create_export_zip_requires_completed [("J", freshJob "J" "t0")] "J"
    (Or.inr ⟨freshJob "J" "t0", rfl, Or.inl rfl⟩)

/-- C9 (amended): degenerate zone polygons are not rejected anywhere: the
validation in process_single_image accepts a phase whose bcZone has 1 or
2 vertices (it only requires a nonempty list), and classify_image
evaluates such a zone through the point-in-polygon classifier and
succeeds, rather than raising an error before the polygon reaches it. -/
theorem degenerate_zone_not_rejected (conv : RGBToLabFn) (image : Grid Pixel)
    (pid : ℕ) (nm : String) (vs : List Vertex)
    (hpid : pid ≠ 0) (hdeg : vs.length = 1 ∨ vs.length = 2) :
    validate_classification (some [(pid, { name := nm, bcZone := vs })])
        = .ok [(pid, { name := nm, bcZone := vs })]
    ∧ classify_image conv image [(pid, { name := nm, bcZone := vs })]
        = .ok (gridMap (classifyPixel conv [(pid, { name := nm, bcZone := vs })]) image) := by
  have hne : vs ≠ [] := by
    intro hc
    rcases hdeg with h | h <;> rw [hc] at h <;> simp at h
  have hvs : vs.isEmpty = false := by
    cases vs with
    | nil => exact absurd rfl hne
    | cons a t => rfl
  constructor
  · simp [validate_classification, List.countP_cons, hvs]
  · exact classify_image_eq_map conv image _ (by simp [hpid])
      ⟨(pid, { name := nm, bcZone := vs }), by simp, Or.inr hne⟩

/-- C9 witness: a two-vertex zone passes validation and classification
succeeds. -/
theorem degenerate_zone_not_rejected_witness :
    classify_image demoConv [[(10, 20, 30)]] phasesDegenerate
      = .ok (gridMap (classifyPixel demoConv phasesDegenerate) [[(10, 20, 30)]]) :=
  (degenerate_zone_not_rejected demoConv [[(10, 20, 30)]] 1 "alpha" zoneSegment
    (by decide) (Or.inr rfl)).2

/-- C9 counterexample: the claim says a configuration with a 2-vertex
bcZone raises an error before the polygon reaches the classifier; in
fact validation accepts it and classify_image returns a raster (the
degenerate zone matches nothing here, so the pixel stays 0). -/
theorem degenerate_zone_accepted_cex :
    validate_classification (some phasesDegenerate) = .ok phasesDegenerate
    ∧ classify_image demoConv [[(10, 20, 30)]] phasesDegenerate = .ok [[0]] := by
  constructor
  · rfl
  · rw [classify_image_eq_map demoConv [[(10, 20, 30)]] phasesDegenerate
      (by simp [phasesDegenerate])
      ⟨(1, { name := "alpha", bcZone := zoneSegment }), by simp [phasesDegenerate],
        Or.inr (by simp [zoneSegment])⟩]
    unfold gridMap
    simp only [List.map_cons, List.map_nil, classifyPixel_segment]

/-- C10: get_job_status on a job id absent from the registry returns the
not-found reply (the literal dict with status = "not_found"), raises
nothing, and leaves the registry exactly as it was. -/
theorem get_job_status_not_found (store : Store) (jobId : String)
    (h : List.lookup jobId store = none) :
    get_job_status store jobId = (StatusReply.notFound, store) := by
  unfold get_job_status
  rw [h]

/-- C10 witness on a store holding one unrelated job. -/
theorem get_job_status_not_found_witness :
    get_job_status [("J", freshJob "J" "t0")] "missing"
      = (StatusReply.notFound, [("J", freshJob "J" "t0")]) :=
  get_job_status_not_found [("J", freshJob "J" "t0")] "missing" rfl

lemma getD_map_range {α : Type} (f : ℕ → α) (d : α) (b i : ℕ) (hi : i < b) :
    ((List.range b).map f).getD i d = f i := by
  rw [List.getD_eq_getElem?_getD, List.getElem?_map, List.getElem?_range hi]
  rfl

/-- C8: calculate_x_distribution produces exactly min(requestedBins, width)
bins - never more than the image width; the boundaries of bin i are the
truncations of i * (width / bins) (binStart); each reported physical X
position is x0 + (binPixelCenter / width) * (x1 - x0) with
binPixelCenter = (x_start + x_end) / 2; every reported per-id series (each
configured phase and the unclassified 0) has one entry per bin; an empty
bin reports 0.0 for every id; and in a nonempty bin the per-phase
fractions plus the unclassified fraction sum to exactly 100, provided the
raster values lie among the distinct nonzero configured ids and 0. -/
theorem calculate_x_distribution_correct (classified : Grid ℕ)
    (phases : List (ℕ × PhaseData)) (x0 x1 : ℚ) (width num_bins : ℕ)
    (hW : 1 ≤ width) (hn : 1 ≤ num_bins)
    (hrow : ∀ row ∈ classified, row.length = width)
    (hnd : (phases.map Prod.fst).Nodup)
    (h0 : 0 ∉ phases.map Prod.fst)
    (hv : ∀ v ∈ classified.flatten, v = 0 ∨ v ∈ phases.map Prod.fst) :
    (calculate_x_distribution classified phases x0 x1 width num_bins).xPositions.length
        = min num_bins width
    ∧ min num_bins width ≤ width
    ∧ (∀ i, i < min num_bins width →
        (calculate_x_distribution classified phases x0 x1 width
            num_bins).xPositions.getD i 0
          = x0 + (((binStart width (min num_bins width) i : ℚ)
              + (binStart width (min num_bins width) (i + 1) : ℚ)) / 2 / (width : ℚ))
            * (x1 - x0))
    ∧ (∀ pp ∈ phases,
        List.lookup pp.1
            (calculate_x_distribution classified phases x0 x1 width
              num_bins).phaseFractions
          = some ((List.range (min num_bins width)).map
              (fun i => binFraction classified width (min num_bins width) pp.1 i)))
    ∧ List.lookup 0
          (calculate_x_distribution classified phases x0 x1 width num_bins).phaseFractions
        = some ((List.range (min num_bins width)).map
            (fun i => binFraction classified width (min num_bins width) 0 i))
    ∧ (∀ i pid, (binSlice classified width (min num_bins width) i).flatten.length = 0 →
        binFraction classified width (min num_bins width) pid i = 0)
    ∧ (∀ i, 0 < (binSlice classified width (min num_bins width) i).flatten.length →
        ((phases.map Prod.fst ++ [0]).map
            (fun pid => binFraction classified width (min num_bins width) pid i)).sum
          = 100) := by
  refine ⟨?_, Nat.min_le_right _ _, ?_, ?_, ?_, ?_, ?_⟩
  · simp [calculate_x_distribution]
  · intro i hi
    unfold calculate_x_distribution
    exact getD_map_range _ 0 _ i hi
  · intro pp hmem
    unfold calculate_x_distribution
    exact lookup_append_left _ _ _ _ (lookup_map_pairs _ phases pp hmem hnd)
  · unfold calculate_x_distribution
    rw [lookup_append_right _ _ _ (lookup_map_pairs_none _ phases 0 h0)]
    simp [List.lookup]
  · intro i pid hlen
    unfold binFraction
    rw [if_pos hlen]
  · intro i hpos
    have hlen : ¬ ((binSlice classified width (min num_bins width) i).flatten.length = 0) :=
      Nat.pos_iff_ne_zero.mp hpos
    have h00 : binFraction classified width (min num_bins width) 0 i
        = (((binSlice classified width (min num_bins width) i).flatten.count 0 : ℚ)
          / ((binSlice classified width (min num_bins width) i).flatten.length : ℚ))
          * 100 := by
      unfold binFraction
      rw [if_neg hlen]
    have hmap : ((phases.map Prod.fst ++ [0]).map
        (fun pid => binFraction classified width (min num_bins width) pid i))
        = ((phases.map Prod.fst).map (fun pid =>
            (((binSlice classified width (min num_bins width) i).flatten.count pid : ℚ)
              / ((binSlice classified width (min num_bins width) i).flatten.length : ℚ))
              * 100))
          ++ [(((binSlice classified width (min num_bins width) i).flatten.count 0 : ℚ)
              / ((binSlice classified width (min num_bins width) i).flatten.length : ℚ))
              * 100] := by
      rw [List.map_append]
      congr 1
      · apply List.map_congr_left
        intro pid _
        unfold binFraction
        rw [if_neg hlen]
      · simp [h00]
    rw [hmap, List.sum_append, List.sum_cons, List.sum_nil, add_zero]
    exact frac_sum _ (phases.map Prod.fst) hnd h0
      (fun v hv2 => hv v (binSlice_flatten_subset classified width (min num_bins width)
        i v hv2))
      hpos

/-- C8 witness: a 1 x 1 raster, one bin; the single nonempty bin's
fractions sum to 100. -/
theorem calculate_x_distribution_correct_witness :
    ((([(1, { name := "alpha" })] : List (ℕ × PhaseData)).map Prod.fst ++ [0]).map
        (fun pid => binFraction [[1]] 1 (min 1 1) pid 0)).sum = 100 := by
  have hb0 : binStart 1 1 0 = 0 := by
    unfold binStart
    norm_num
  have hb1 : binStart 1 1 1 = 1 := by
    unfold binStart
    norm_num
  have hslice : binSlice [[1]] 1 1 0 = [[1]] := by
    unfold binSlice
    rw [hb0, hb1]
    rfl
  have hmin : min 1 1 = 1 := rfl
  obtain ⟨-, -, -, -, -, -, h7⟩ :=
    calculate_x_distribution_correct [[1]] [(1, { name := "alpha" })] 0 1 1 1
      (by decide) (by decide) (by decide) (by decide) (by decide) (by decide)
  have := h7 0 (by rw [hmin, hslice]; decide)
  simpa [hmin] using this

end OpticalPhase
